import Mathlib

/-!
# Verification of `inventory_system.py`

A shallow embedding of the inventory management module. The module keeps a
mapping from item names to integer quantities (the Python dict `stock_data`)
and offers mutation, query and persistence helpers. Python dicts preserve
insertion order, so the inventory is modelled as an association list
`List (String × Int)`; the module-level mutable dict becomes explicit state
passing, and functions that raise return the error together with the
post-state (Python exceptions leave the partially mutated global behind,
which matters for `load_data`).

Dynamically typed arguments and JSON values are modelled by the inductive
`JVal`. A Python `bool` satisfies `isinstance(x, int)`, so boolean values
count as integers wherever the source checks `isinstance(..., int)`; a
boolean is represented by its integer value. JSON floats are modelled as
rationals; Python `int()` on a float truncates toward zero.
-/

namespace InventorySystem

/-- Dynamically typed values: the possible results of `json.load` and the
possible arguments of the Python functions. -/
inductive JVal where
  | str (s : String)
  | int (n : Int)
  | float (q : Rat)
  | bool (b : Bool)
  | null
  | arr (xs : List JVal)
  | obj (kvs : List (String × JVal))
  deriving Repr

/-- The inventory: the Python dict `stock_data`, item name to quantity,
in insertion order. -/
abbrev Inv := List (String × Int)

/-- `d.get(k, 0)`: first value bound to `k`, or `0` when absent. -/
def dictGet0 : Inv → String → Int
  | [], _ => 0
  | (k', v') :: rest, k => if k' = k then v' else dictGet0 rest k

/-- `k in d`: whether the key is present. -/
def dictHas : Inv → String → Bool
  | [], _ => false
  | (k', _) :: rest, k => k' = k || dictHas rest k

/-- `d[k] = v`: replace the value at an existing key in place, or append a
new binding at the end (Python dicts keep insertion order). -/
def dictSet : Inv → String → Int → Inv
  | [], k, v => [(k, v)]
  | (k', v') :: rest, k, v =>
    if k' = k then (k, v) :: rest else (k', v') :: dictSet rest k v

/-- `del d[k]`: drop the binding of `k`. -/
def dictDel : Inv → String → Inv
  | [], _ => []
  | (k', v') :: rest, k => if k' = k then rest else (k', v') :: dictDel rest k

/-- `isinstance(v, int)` together with the integer value: Python `int`
and `bool` qualify, a `bool` counting as `1`/`0`. -/
def pyIntArg : JVal → Option Int
  | JVal.int n => some n
  | JVal.bool b => some (if b then 1 else 0)
  | _ => none

/-- Value of a nonempty list of decimal digits, `none` on any non-digit. -/
def digitsVal (cs : List Char) : Option Nat :=
  if cs ≠ [] ∧ cs.all (·.isDigit) then
    some (cs.foldl (fun a c => a * 10 + (c.toNat - 48)) 0)
  else
    none

/-- Python `int(s)` on a string: surrounding whitespace is ignored, then an
optional sign followed by decimal digits (plain decimal strings; exotic
forms such as underscores are out of scope). `none` models `ValueError`. -/
def pyStrToInt (s : String) : Option Int :=
  let cs := (s.toList.dropWhile (·.isWhitespace)).reverse
  let cs := (cs.dropWhile (·.isWhitespace)).reverse
  match cs with
  | '-' :: rest => (digitsVal rest).map (fun n => -(n : Int))
  | '+' :: rest => (digitsVal rest).map (fun n => (n : Int))
  | _ => (digitsVal cs).map (fun n => (n : Int))

/-- Truncation toward zero, the behaviour of Python `int()` on a float. -/
def ratTrunc (q : Rat) : Int :=
  if 0 ≤ q then q.floor else -((-q).floor)

/-- The value stored by `load_data` for a JSON value: an `int` (or `bool`)
is kept as is; otherwise `int(val)` is attempted — truncating a float,
parsing a numeric string, failing (`none`) on anything else. -/
def coerceVal : JVal → Option Int
  | JVal.int n => some n
  | JVal.bool b => some (if b then 1 else 0)
  | JVal.float q => some (ratTrunc q)
  | JVal.str s => pyStrToInt s
  | _ => none

/-- `add_item`: validates `item` and `qty`, then adds `qty` to the current
quantity (default 0) and appends a timestamped line to `logs`. Returns
(raised error, stock_data afterwards, logs afterwards); `now` stands for
`datetime.now()`. -/
def add_item (inv : Inv) (item qty : JVal) (logs : List String)
    (now : String) : Option String × Inv × List String :=
  match item with
  | JVal.str s =>
    if s = "" then (some "item must be a non-empty string", inv, logs)
    else
      match pyIntArg qty with
      | none => (some "qty must be an int", inv, logs)
      | some n =>
        (none, dictSet inv s (dictGet0 inv s + n),
          logs ++ [now ++ ": Added " ++ toString n ++ " of " ++ s])
  | _ => (some "item must be a non-empty string", inv, logs)

/-- `remove_item`: validates `item` and `qty`; when the item is present,
subtracts `qty` and deletes the entry if the result is ≤ 0; a missing item
raises `KeyError` before any write, which is caught and ignored. Returns
(raised error, stock_data afterwards). -/
def remove_item (inv : Inv) (item qty : JVal) : Option String × Inv :=
  match item with
  | JVal.str s =>
    if s = "" then (some "item must be a non-empty string", inv)
    else
      match pyIntArg qty with
      | none => (some "qty must be an int", inv)
      | some n =>
        if dictHas inv s then
          if dictGet0 inv s - n ≤ 0 then (none, dictDel inv s)
          else (none, dictSet inv s (dictGet0 inv s - n))
        else (none, inv)
  | _ => (some "item must be a non-empty string", inv)

/-- `get_qty`: validates `item` and returns `stock_data.get(item, 0)`. -/
def get_qty (inv : Inv) (item : JVal) : Except String Int :=
  match item with
  | JVal.str s =>
    if s = "" then Except.error "item must be a non-empty string"
    else Except.ok (dictGet0 inv s)
  | _ => Except.error "item must be a non-empty string"

/-- The loop of `load_data` over `data.items()`, started on the cleared
dict: rejects an empty key, coerces each value, stops at the first bad
entry. Returns (raised error, stock_data afterwards) — on an error the
entries already written stay. -/
def loadEntries (acc : Inv) : List (String × JVal) → Option String × Inv
  | [] => (none, acc)
  | (k, v) :: rest =>
    if k = "" then (some "inventory keys must be non-empty strings", acc)
    else
      match coerceVal v with
      | some n => loadEntries (dictSet acc k n) rest
      | none => (some "inventory quantities must be integers", acc)

/-- `load_data`: `content` is the parsed file — `none` when opening or
`json.load` fails (IOError / JSONDecodeError), `some v` the parsed JSON.
A non-object root is rejected before touching the dict; otherwise the dict
is cleared and repopulated entry by entry. Returns (raised error,
stock_data afterwards). -/
def load_data (inv : Inv) (content : Option JVal) : Option String × Inv :=
  match content with
  | none => (some "file missing, unreadable, or malformed JSON", inv)
  | some v =>
    match v with
    | JVal.obj kvs => loadEntries [] kvs
    | _ =>
      (some "inventory JSON must contain an object mapping items to quantities",
        inv)

/-- `save_data`: the JSON value written to the file — the current dict as a
JSON object, entries in insertion order. -/
def save_data (inv : Inv) : JVal :=
  JVal.obj (inv.map (fun p => (p.1, JVal.int p.2)))

/-- `print_data`: the lines printed — a header, then one line per item in
insertion order. -/
def print_data (inv : Inv) : List String :=
  "Items Report" :: inv.map (fun p => p.1 ++ " -> " ++ toString p.2)

/-- `check_low_items`: validates `threshold`, then returns the names of
the items with quantity strictly below it, in insertion order. -/
def check_low_items (inv : Inv) (threshold : JVal) :
    Except String (List String) :=
  match pyIntArg threshold with
  | none => Except.error "threshold must be an int"
  | some t => Except.ok ((inv.filter (fun p => p.2 < t)).map (fun p => p.1))

/-- A sequence of `add_item` calls for one item (fresh empty log each call,
as with the Python default `logs=None`), stopping at the first error. -/
def runAdds (inv : Inv) (s : String) : List Int → Option String × Inv
  | [] => (none, inv)
  | q :: rest =>
    match add_item inv (JVal.str s) (JVal.int q) [] "" with
    | (some e, inv2, _) => (some e, inv2)
    | (none, inv2, _) => runAdds inv2 s rest

/-- Whether `item` fails `add_item`/`remove_item` validation: not a string,
or the empty string. -/
def itemBad : JVal → Bool
  | JVal.str s => s = ""
  | _ => true

/-- Whether `qty` fails validation: not an `isinstance(..., int)` value. -/
def qtyBad (v : JVal) : Bool := (pyIntArg v).isNone

/-- An entry `load_data` accepts: nonempty key and coercible value. -/
def entryOk (p : String × JVal) : Bool :=
  p.1 ≠ "" && (coerceVal p.2).isSome

/-! ## Lemmas about the dict operations -/

theorem dictHas_iff_mem_keys (inv : Inv) (k : String) :
    dictHas inv k = true ↔ k ∈ inv.map Prod.fst := by
  induction inv with
  | nil => simp [dictHas]
  | cons p rest ih =>
    obtain ⟨k', v'⟩ := p
    by_cases h : k' = k
    · subst h
      simp [dictHas]
    · have h2 : ¬k = k' := fun hh => h hh.symm
      simp [dictHas, h, h2, ih]

theorem dictGet0_dictSet_self (inv : Inv) (k : String) (v : Int) :
    dictGet0 (dictSet inv k v) k = v := by
  induction inv with
  | nil => simp [dictSet, dictGet0]
  | cons p rest ih =>
    obtain ⟨k', v'⟩ := p
    by_cases h : k' = k <;> simp [dictSet, dictGet0, h, ih]

theorem dictHas_dictSet_self (inv : Inv) (k : String) (v : Int) :
    dictHas (dictSet inv k v) k = true := by
  induction inv with
  | nil => simp [dictSet, dictHas]
  | cons p rest ih =>
    obtain ⟨k', v'⟩ := p
    by_cases h : k' = k <;> simp [dictSet, dictHas, h, ih]

theorem dictSet_of_not_has (inv : Inv) (k : String) (v : Int)
    (h : dictHas inv k = false) : dictSet inv k v = inv ++ [(k, v)] := by
  induction inv with
  | nil => simp [dictSet]
  | cons p rest ih =>
    obtain ⟨k', v'⟩ := p
    simp only [dictHas, Bool.or_eq_false_iff] at h
    simp only [decide_eq_false_iff_not] at h
    simp [dictSet, h.1, ih h.2]

theorem dictHas_append (l₁ l₂ : Inv) (k : String) :
    dictHas (l₁ ++ l₂) k = (dictHas l₁ k || dictHas l₂ k) := by
  induction l₁ with
  | nil => simp [dictHas]
  | cons p rest ih =>
    obtain ⟨k', v'⟩ := p
    by_cases h : k' = k <;> simp [dictHas, h, ih]

theorem dictHas_dictDel_self (inv : Inv) (k : String)
    (hnd : (inv.map Prod.fst).Nodup) : dictHas (dictDel inv k) k = false := by
  induction inv with
  | nil => simp [dictDel, dictHas]
  | cons p rest ih =>
    obtain ⟨k', v'⟩ := p
    simp only [List.map_cons, List.nodup_cons] at hnd
    by_cases h : k' = k
    · subst h
      simp only [dictDel, if_pos rfl]
      rw [← Bool.not_eq_true, dictHas_iff_mem_keys]
      exact hnd.1
    · simp [dictDel, dictHas, h, ih hnd.2]

theorem dictGet0_eq_zero_of_not_has (inv : Inv) (k : String)
    (h : dictHas inv k = false) : dictGet0 inv k = 0 := by
  induction inv with
  | nil => simp [dictGet0]
  | cons p rest ih =>
    obtain ⟨k', v'⟩ := p
    simp only [dictHas, Bool.or_eq_false_iff, decide_eq_false_iff_not] at h
    simp [dictGet0, h.1, ih h.2]

theorem mem_low_list_imp_has (inv : Inv) (t : Int) (s : String)
    (h : s ∈ (inv.filter (fun p => p.2 < t)).map (fun p => p.1)) :
    dictHas inv s = true := by
  induction inv with
  | nil => simp at h
  | cons p rest ih =>
    obtain ⟨k', v'⟩ := p
    by_cases hv : v' < t
    · simp only [List.filter_cons, decide_eq_true_eq, if_pos hv,
        List.map_cons, List.mem_cons] at h
      rcases h with h | h
      · simp [dictHas, h]
      · simp [dictHas, ih h]
    · simp only [List.filter_cons, decide_eq_true_eq, if_neg hv] at h
      simp [dictHas, ih h]

theorem mem_low_list_iff (inv : Inv) (t : Int) (s : String)
    (hnd : (inv.map Prod.fst).Nodup) :
    s ∈ (inv.filter (fun p => p.2 < t)).map (fun p => p.1) ↔
      dictHas inv s = true ∧ dictGet0 inv s < t := by
  induction inv with
  | nil => simp [dictHas]
  | cons p rest ih =>
    obtain ⟨k', v'⟩ := p
    simp only [List.map_cons, List.nodup_cons] at hnd
    by_cases hk : k' = s
    · subst hk
      have hrest : k' ∈ (rest.filter (fun p => p.2 < t)).map (fun p => p.1) →
          False := by
        intro hmem
        exact hnd.1 ((dictHas_iff_mem_keys rest k').1
          (mem_low_list_imp_has rest t k' hmem))
      by_cases hv : v' < t
      · simp only [List.filter_cons, decide_eq_true_eq, if_pos hv,
          List.map_cons, List.mem_cons]
        simp [dictHas, dictGet0, hv]
      · simp only [List.filter_cons, decide_eq_true_eq, if_neg hv]
        simp only [dictHas, dictGet0, if_pos rfl]
        constructor
        · intro hmem
          exact absurd hmem hrest
        · intro hc
          exact absurd hc.2 hv
    · have hget : dictGet0 ((k', v') :: rest) s = dictGet0 rest s := by
        simp [dictGet0, hk]
      have hhas : dictHas ((k', v') :: rest) s = dictHas rest s := by
        simp [dictHas, hk]
      rw [hget, hhas, ← ih hnd.2]
      by_cases hv : v' < t
      · simp only [List.filter_cons, decide_eq_true_eq, if_pos hv,
          List.map_cons, List.mem_cons]
        simp [hk]
        tauto
      · simp [List.filter_cons, hv]

/-! ## Lemmas about the `load_data` loop -/

theorem loadEntries_ok_append (good tail : List (String × JVal)) (acc : Inv)
    (h : ∀ p ∈ good, entryOk p = true) :
    (loadEntries acc good).1 = none ∧
      loadEntries acc (good ++ tail) =
        loadEntries (loadEntries acc good).2 tail := by
  induction good generalizing acc with
  | nil => simp [loadEntries]
  | cons p rest ih =>
    obtain ⟨k, v⟩ := p
    have hp := h (k, v) (List.mem_cons_self _ _)
    simp only [entryOk, Bool.and_eq_true, decide_eq_true_eq] at hp
    obtain ⟨n, hn⟩ := Option.isSome_iff_exists.1 hp.2
    have hrest : ∀ p ∈ rest, entryOk p = true :=
      fun p hm => h p (List.mem_cons_of_mem _ hm)
    simp only [List.cons_append, loadEntries, if_neg hp.1, hn]
    exact ih (dictSet acc k n) hrest

theorem loadEntries_save (l : Inv) (acc : Inv)
    (hne : ∀ p ∈ l, p.1 ≠ "")
    (hnd : (l.map Prod.fst).Nodup)
    (hdisj : ∀ k ∈ l.map Prod.fst, dictHas acc k = false) :
    loadEntries acc (l.map fun p => (p.1, JVal.int p.2)) = (none, acc ++ l) := by
  induction l generalizing acc with
  | nil => simp [loadEntries]
  | cons p rest ih =>
    obtain ⟨k, v⟩ := p
    have hk : k ≠ "" := hne (k, v) (List.mem_cons_self _ _)
    have hkd : dictHas acc k = false := hdisj k (by simp)
    simp only [List.map_cons, loadEntries, if_neg hk, coerceVal]
    rw [dictSet_of_not_has acc k v hkd]
    simp only [List.map_cons, List.nodup_cons] at hnd
    have ih2 := ih (acc ++ [(k, v)])
      (fun p hm => hne p (List.mem_cons_of_mem _ hm)) hnd.2
      (fun k' hm => by
        have h1 : dictHas acc k' = false := hdisj k' (by simp [hm])
        have hkk : k ≠ k' := by
          intro he
          exact hnd.1 (by rw [he]; exact hm)
        rw [dictHas_append]
        simp [dictHas, h1, hkk])
    rw [ih2, List.append_assoc]
    rfl

/-! ## The claims -/

/-- C1 (counterexample): the claim that a failed `load_data` always leaves
the inventory unchanged is false — loading `{"b": 2, "": 5}` over the
inventory `{"a": 1}` fails on the empty key, yet the inventory afterwards
is `{"b": 2}`, not `{"a": 1}`: the dict was cleared and partially
repopulated before the error. -/
theorem c1_counterexample :
    (load_data [("a", (1 : Int))]
        (some (JVal.obj [("b", JVal.int 2), ("", JVal.int 5)]))).1.isSome = true ∧
      (load_data [("a", (1 : Int))]
          (some (JVal.obj [("b", JVal.int 2), ("", JVal.int 5)]))).2 ≠
        [("a", (1 : Int))] := by
  decide

/-- C1 (amended): a failed `load_data` leaves the inventory unchanged when
the failure happens before the per-entry loop — missing/unreadable file,
malformed JSON, or a non-object root. When the failure is an empty key or
a non-coercible value, the inventory has instead been cleared and
repopulated with exactly the accepted entries preceding the offending
one. -/
theorem c1_load_failure_states :
    (∀ inv : Inv,
      (load_data inv none).1.isSome = true ∧ (load_data inv none).2 = inv) ∧
    (∀ (inv : Inv) (v : JVal), (∀ kvs, v ≠ JVal.obj kvs) →
      (load_data inv (some v)).1.isSome = true ∧
        (load_data inv (some v)).2 = inv) ∧
    (∀ (inv : Inv) (good : List (String × JVal)) (k : String) (v : JVal)
        (rest : List (String × JVal)),
      (∀ p ∈ good, entryOk p = true) → entryOk (k, v) = false →
      (load_data inv (some (JVal.obj (good ++ (k, v) :: rest)))).1.isSome =
          true ∧
        (load_data inv (some (JVal.obj (good ++ (k, v) :: rest)))).2 =
          (loadEntries [] good).2) := by
  refine ⟨fun inv => ⟨rfl, rfl⟩, fun inv v hv => ?_,
    fun inv good k v rest hgood hbad => ?_⟩
  · cases v <;> first
      | exact absurd rfl (hv _)
      | exact ⟨rfl, rfl⟩
  · have h := loadEntries_ok_append good ((k, v) :: rest) [] hgood
    simp only [load_data]
    rw [h.2]
    by_cases hk : k = ""
    · subst hk
      simp [loadEntries]
    · have hc : coerceVal v = none := by
        cases hcv : coerceVal v with
        | none => rfl
        | some n =>
          rw [entryOk] at hbad
          simp [hk, hcv] at hbad
      simp [loadEntries, hk, hc]

/-- Closed instance of the amended C1 statement at the counterexample
input: the failed load leaves exactly the accepted prefix `{"b": 2}`. -/
theorem c1_load_failure_states_witness :
    (load_data [("a", (1 : Int))]
        (some (JVal.obj [("b", JVal.int 2), ("", JVal.int 5)]))).1.isSome =
        true ∧
      (load_data [("a", (1 : Int))]
          (some (JVal.obj [("b", JVal.int 2), ("", JVal.int 5)]))).2 =
        (loadEntries [] [("b", JVal.int 2)]).2 := by
  have h := c1_load_failure_states.2.2 [("a", (1 : Int))]
    [("b", JVal.int 2)] "" (JVal.int 5) [] (by decide) (by decide)
  exact h

/-- C2: `save_data` followed by `load_data` succeeds and reproduces the
inventory exactly — same keys, same integer values — for every starting
inventory `inv0`, provided the saved inventory satisfies the dict
invariants (nonempty keys, no duplicate keys). The saved inventory is
arbitrary, so the result holds regardless of insertion order. -/
theorem c2_save_load_roundtrip (inv0 inv : Inv)
    (hne : ∀ p ∈ inv, p.1 ≠ "")
    (hnd : (inv.map Prod.fst).Nodup) :
    load_data inv0 (some (save_data inv)) = (none, inv) := by
  simp only [load_data, save_data]
  rw [loadEntries_save inv [] hne hnd (fun k _ => rfl)]
  rfl

/-- Closed instance of C2 on a two-item inventory. -/
theorem c2_save_load_roundtrip_witness :
    load_data [("z", (9 : Int))]
        (some (save_data [("apple", (7 : Int)), ("banana", 2)])) =
      (none, [("apple", (7 : Int)), ("banana", 2)]) :=
  c2_save_load_roundtrip [("z", (9 : Int))] [("apple", (7 : Int)), ("banana", 2)]
    (by decide) (by decide)

/-- C6: `remove_item` on a valid item name that is absent from the
inventory raises nothing and returns the inventory exactly unchanged. -/
theorem c6_remove_absent (inv : Inv) (s : String) (q : Int)
    (hs : s ≠ "") (habs : dictHas inv s = false) :
    remove_item inv (JVal.str s) (JVal.int q) = (none, inv) := by
  simp [remove_item, hs, pyIntArg, habs]

/-- Closed instance of C6: removing the absent "orange". -/
theorem c6_remove_absent_witness :
    remove_item [("apple", (7 : Int))] (JVal.str "orange") (JVal.int 1) =
      (none, [("apple", (7 : Int))]) :=
  c6_remove_absent [("apple", (7 : Int))] "orange" 1 (by decide) (by decide)

/-- C7: `add_item` raises exactly when the item is not a string or is the
empty string, or the quantity is not an integer (`isinstance(..., int)`,
so Python booleans count as integers); on every nonempty string item and
integer quantity it succeeds. -/
theorem c7_add_validation (inv : Inv) (item qty : JVal)
    (logs : List String) (now : String) :
    (add_item inv item qty logs now).1.isSome = (itemBad item || qtyBad qty) := by
  cases item with
  | str s =>
    by_cases hs : s = ""
    · simp [add_item, itemBad, hs]
    · cases hq : pyIntArg qty with
      | none => simp [add_item, itemBad, qtyBad, hs, hq]
      | some n => simp [add_item, itemBad, qtyBad, hs, hq]
  | int n => simp [add_item, itemBad]
  | float q => simp [add_item, itemBad]
  | bool b => simp [add_item, itemBad]
  | null => simp [add_item, itemBad]
  | arr xs => simp [add_item, itemBad]
  | obj kvs => simp [add_item, itemBad]

/-- C3: a sequence of `add_item` calls for one valid item (no intervening
remove/load) all succeed, and `get_qty` afterwards returns the initial
quantity (0 when the item was absent) plus the sum of all added
quantities. -/
theorem c3_add_accumulates (inv : Inv) (s : String) (qs : List Int)
    (hs : s ≠ "") :
    (runAdds inv s qs).1 = none ∧
      get_qty (runAdds inv s qs).2 (JVal.str s) =
        Except.ok (dictGet0 inv s + qs.sum) := by
  induction qs generalizing inv with
  | nil => simp [runAdds, get_qty, hs]
  | cons q rest ih =>
    simp only [runAdds, add_item, if_neg hs, pyIntArg]
    have h := ih (dictSet inv s (dictGet0 inv s + q))
    rw [dictGet0_dictSet_self] at h
    simpa [List.sum_cons, add_assoc] using h

/-- Closed instance of C3: adds of 10, 2 and -5 on an initial quantity of
1 leave the quantity at 8. -/
theorem c3_add_accumulates_witness :
    (runAdds [("apple", (1 : Int))] "apple" [10, 2, -5]).1 = none ∧
      get_qty (runAdds [("apple", (1 : Int))] "apple" [10, 2, -5]).2
          (JVal.str "apple") = Except.ok 8 := by
  have h := c3_add_accumulates [("apple", (1 : Int))] "apple" [10, 2, -5]
    (by decide)
  refine ⟨h.1, ?_⟩
  rw [h.2]
  rfl

/-- C4: `remove_item` on a present item succeeds and subtracts the
quantity; when the result is ≤ 0 the entry is deleted, so `get_qty`
returns 0, the key is gone from the dict (hence from the report
iteration), and it is in no subsequent `check_low_items` result; when the
result is positive, the reduced quantity is stored. -/
theorem c4_remove_present (inv : Inv) (s : String) (q : Int)
    (hs : s ≠ "") (hin : dictHas inv s = true)
    (hnd : (inv.map Prod.fst).Nodup) :
    (remove_item inv (JVal.str s) (JVal.int q)).1 = none ∧
      (dictGet0 inv s - q ≤ 0 →
        (remove_item inv (JVal.str s) (JVal.int q)).2 = dictDel inv s ∧
          get_qty (dictDel inv s) (JVal.str s) = Except.ok 0 ∧
          dictHas (dictDel inv s) s = false ∧
          (∀ (t : Int) (l : List String),
            check_low_items (dictDel inv s) (JVal.int t) = Except.ok l →
              s ∉ l)) ∧
      (0 < dictGet0 inv s - q →
        dictGet0 (remove_item inv (JVal.str s) (JVal.int q)).2 s =
          dictGet0 inv s - q) := by
  have hdel := dictHas_dictDel_self inv s hnd
  have hred : remove_item inv (JVal.str s) (JVal.int q) =
      if dictGet0 inv s - q ≤ 0 then (none, dictDel inv s)
      else (none, dictSet inv s (dictGet0 inv s - q)) := by
    simp [remove_item, hs, pyIntArg, hin]
  refine ⟨?_, fun hle => ?_, fun hlt => ?_⟩
  · rw [hred]
    by_cases hle : dictGet0 inv s - q ≤ 0 <;> simp [hle]
  · refine ⟨by rw [hred, if_pos hle], ?_, hdel, fun t l hl hmem => ?_⟩
    · simp [get_qty, hs, dictGet0_eq_zero_of_not_has _ _ hdel]
    · simp only [check_low_items, pyIntArg, Except.ok.injEq] at hl
      subst hl
      exact absurd (mem_low_list_imp_has _ t s hmem) (by simp [hdel])
  · rw [hred, if_neg (not_le.2 hlt)]
    exact dictGet0_dictSet_self inv s _

/-- Closed instance of C4: removing 5 of "banana" (stock 2) deletes the
entry and `get_qty` then returns 0; removing 3 of "apple" (stock 7)
leaves 4. -/
theorem c4_remove_present_witness :
    ((remove_item [("apple", (7 : Int)), ("banana", 2)] (JVal.str "banana")
          (JVal.int 5)).2 =
        dictDel [("apple", (7 : Int)), ("banana", 2)] "banana" ∧
      get_qty (dictDel [("apple", (7 : Int)), ("banana", 2)] "banana")
          (JVal.str "banana") = Except.ok 0) ∧
      dictGet0 (remove_item [("apple", (7 : Int)), ("banana", 2)]
          (JVal.str "apple") (JVal.int 3)).2 "apple" = 4 := by
  have h1 := c4_remove_present [("apple", (7 : Int)), ("banana", 2)] "banana" 5
    (by decide) (by decide) (by decide)
  have h2 := c4_remove_present [("apple", (7 : Int)), ("banana", 2)] "apple" 3
    (by decide) (by decide) (by decide)
  have h1' := h1.2.1 (by decide)
  have h2' := h2.2.2 (by decide)
  exact ⟨⟨h1'.1, h1'.2.1⟩, by rw [h2']; rfl⟩

/-- C5: `check_low_items` succeeds on an integer threshold and contains
exactly the items whose stored quantity is strictly below it; an item
whose quantity equals the threshold is excluded. -/
theorem c5_check_low (inv : Inv) (t : Int) (s : String) (l : List String)
    (hnd : (inv.map Prod.fst).Nodup)
    (h : check_low_items inv (JVal.int t) = Except.ok l) :
    s ∈ l ↔ dictHas inv s = true ∧ dictGet0 inv s < t := by
  simp only [check_low_items, pyIntArg, Except.ok.injEq] at h
  subst h
  exact mem_low_list_iff inv t s hnd

/-- Closed instance of C5: with stock apple 7, banana 2 and threshold 5,
"banana" is in the result and nothing at or above 5 is. -/
theorem c5_check_low_witness :
    ("banana" ∈ ["banana"] ↔
      dictHas [("apple", (7 : Int)), ("banana", 2)] "banana" = true ∧
        dictGet0 [("apple", (7 : Int)), ("banana", 2)] "banana" < 5) :=
  c5_check_low [("apple", (7 : Int)), ("banana", 2)] 5 "banana" ["banana"]
    (by decide) rfl

/-- C8: when `add_item` or `remove_item` raises a validation error, the
inventory is unchanged and (for `add_item`) nothing was appended to the
supplied log sink — validation precedes any mutation. -/
theorem c8_validation_before_mutation :
    (∀ (inv : Inv) (item qty : JVal) (logs : List String) (now : String),
      (add_item inv item qty logs now).1.isSome = true →
      (add_item inv item qty logs now).2 = (inv, logs)) ∧
    (∀ (inv : Inv) (item qty : JVal),
      (remove_item inv item qty).1.isSome = true →
      (remove_item inv item qty).2 = inv) := by
  constructor
  · intro inv item qty logs now h
    cases item with
    | str s =>
      by_cases hs : s = ""
      · simp [add_item, hs]
      · cases hq : pyIntArg qty with
        | none => simp [add_item, hs, hq]
        | some n => simp [add_item, hs, hq] at h
    | int n => simp [add_item]
    | float q => simp [add_item]
    | bool b => simp [add_item]
    | null => simp [add_item]
    | arr xs => simp [add_item]
    | obj kvs => simp [add_item]
  · intro inv item qty h
    cases item with
    | str s =>
      by_cases hs : s = ""
      · simp [remove_item, hs]
      · cases hq : pyIntArg qty with
        | none => simp [remove_item, hs, hq]
        | some n =>
          by_cases hin : dictHas inv s
          · by_cases hle : dictGet0 inv s - n ≤ 0 <;>
              simp [remove_item, hs, hq, hin, hle] at h
          · simp [remove_item, hs, hq, hin] at h
    | int n => simp [remove_item]
    | float q => simp [remove_item]
    | bool b => simp [remove_item]
    | null => simp [remove_item]
    | arr xs => simp [remove_item]
    | obj kvs => simp [remove_item]

/-- Closed instance of C8: `add_item` with an empty item name leaves the
inventory and the log sink untouched; `remove_item` with a non-string
item leaves the inventory untouched. -/
theorem c8_validation_before_mutation_witness :
    (add_item [("a", (1 : Int))] (JVal.str "") (JVal.int 1) ["old"] "t").2 =
        ([("a", (1 : Int))], ["old"]) ∧
      (remove_item [("a", (1 : Int))] JVal.null (JVal.int 1)).2 =
        [("a", (1 : Int))] :=
  ⟨c8_validation_before_mutation.1 [("a", (1 : Int))] (JVal.str "")
      (JVal.int 1) ["old"] "t" (by decide),
    c8_validation_before_mutation.2 [("a", (1 : Int))] JVal.null (JVal.int 1)
      (by decide)⟩

/-- C9: `load_data` coerces non-integer JSON values with Python `int()`:
the float 3.9 is stored as 3 and -3.9 as -3 (truncation toward zero), the
numeric string "7" is stored as 7; in general a coercible value is stored
as its coercion, and exactly the non-coercible values are rejected. -/
theorem c9_load_coercion :
    (∀ inv0 : Inv,
      load_data inv0 (some (JVal.obj [("a", JVal.float (39 / 10))])) =
        (none, [("a", (3 : Int))])) ∧
    (∀ inv0 : Inv,
      load_data inv0 (some (JVal.obj [("a", JVal.float (-(39 / 10)))])) =
        (none, [("a", (-3 : Int))])) ∧
    (∀ inv0 : Inv,
      load_data inv0 (some (JVal.obj [("a", JVal.str "7")])) =
        (none, [("a", (7 : Int))])) ∧
    (∀ (inv0 : Inv) (k : String) (v : JVal) (n : Int),
      k ≠ "" → coerceVal v = some n →
      load_data inv0 (some (JVal.obj [(k, v)])) = (none, [(k, n)])) ∧
    (∀ (inv0 : Inv) (k : String) (v : JVal),
      k ≠ "" → coerceVal v = none →
      (load_data inv0 (some (JVal.obj [(k, v)]))).1.isSome = true ∧
        (load_data inv0 (some (JVal.obj [(k, v)]))).2 = []) := by
  have h39 : coerceVal (JVal.float (39 / 10)) = some 3 := by
    simp only [coerceVal, ratTrunc]
    rw [if_pos (by norm_num), Rat.floor_def']
    norm_num
  have h39n : coerceVal (JVal.float (-(39 / 10))) = some (-3) := by
    simp only [coerceVal, ratTrunc]
    rw [if_neg (by norm_num), Rat.floor_def']
    norm_num
  have h7 : coerceVal (JVal.str "7") = some 7 := by decide
  refine ⟨fun inv0 => by simp [load_data, loadEntries, h39, dictSet],
    fun inv0 => by simp [load_data, loadEntries, h39n, dictSet],
    fun inv0 => by simp [load_data, loadEntries, h7, dictSet],
    fun inv0 k v n hk hc => ?_, fun inv0 k v hk hc => ?_⟩
  · simp [load_data, loadEntries, hk, hc, dictSet]
  · simp [load_data, loadEntries, hk, hc]

/-- Closed instances of the general C9 clauses: a JSON boolean is kept as
its integer value (it passes Python's `isinstance(..., int)`), and a JSON
null is rejected leaving the cleared dict. -/
theorem c9_load_coercion_witness :
    load_data [] (some (JVal.obj [("b", JVal.bool true)])) =
        (none, [("b", (1 : Int))]) ∧
      (load_data [] (some (JVal.obj [("n", JVal.null)]))).2 = [] :=
  ⟨c9_load_coercion.2.2.2.1 [] "b" (JVal.bool true) 1 (by decide) (by decide),
    (c9_load_coercion.2.2.2.2 [] "n" JVal.null (by decide) (by decide)).2⟩

/-- C10: `add_item` never deletes an entry — when the prior quantity plus
`qty` is ≤ 0, the non-positive sum is stored, the key stays present, and
`get_qty` returns that non-positive value rather than 0. -/
theorem c10_add_keeps_nonpositive (inv : Inv) (s : String) (n : Int)
    (logs : List String) (now : String) (hs : s ≠ "")
    (_hnp : dictGet0 inv s + n ≤ 0) :
    (add_item inv (JVal.str s) (JVal.int n) logs now).1 = none ∧
      dictHas (add_item inv (JVal.str s) (JVal.int n) logs now).2.1 s = true ∧
      get_qty (add_item inv (JVal.str s) (JVal.int n) logs now).2.1
          (JVal.str s) = Except.ok (dictGet0 inv s + n) := by
  refine ⟨?_, ?_, ?_⟩
  · simp [add_item, hs, pyIntArg]
  · simp [add_item, hs, pyIntArg, dictHas_dictSet_self]
  · simp [add_item, get_qty, hs, pyIntArg, dictGet0_dictSet_self]

/-- Closed instance of C10: adding -9 to a stock of 7 stores -2 and
`get_qty` returns -2. -/
theorem c10_add_keeps_nonpositive_witness :
    dictHas (add_item [("apple", (7 : Int))] (JVal.str "apple")
        (JVal.int (-9)) [] "t").2.1 "apple" = true ∧
      get_qty (add_item [("apple", (7 : Int))] (JVal.str "apple")
          (JVal.int (-9)) [] "t").2.1 (JVal.str "apple") =
        Except.ok (-2) := by
  have h := c10_add_keeps_nonpositive [("apple", (7 : Int))] "apple" (-9) []
    "t" (by decide) (by decide)
  refine ⟨h.2.1, ?_⟩
  rw [h.2.2]
  rfl

end InventorySystem
